import Mathlib

/-!
Shallow embedding of the `progress_string` Rust crate (`src/lib.rs`) and
verification of its specification.

Modelling conventions:

* Rust `usize` is modelled as `Nat`.  Where wrap-around matters (the unchecked
  `+=` in `Bar::update`) the result is reduced `% USIZE` with `USIZE = 2 ^ 64`,
  matching release-mode wrapping semantics of `usize` addition.
* Rust `f32` arithmetic (`calculate_percent`, the fill comparisons in the
  `Display` impl, and the tier comparisons in `get_width`) is modelled with
  exact rationals (`ℚ`) for finite values.  At `total = 0` the Rust division
  produces a special value, `NaN` (when `current_partial = 0`) or `+inf`
  (when `current_partial > 0`), while `ℚ` division by zero yields `0`; so
  `Bar.calculate_percent` and the renderings built on it are faithful only
  for `total ≠ 0`.  The degenerate case is modelled separately and
  faithfully: `F32Val` carries the value domain the division actually
  produces (a nonnegative finite rational, `+inf`, or `NaN`) with IEEE
  semantics (`NaN` compares false with everything, `+inf` is above every
  finite value, `0.0 * +inf = NaN`) and `{:.2}` formatting of the special
  values (`"inf"` / `"NaN"`); `Bar.render32` renders over it and agrees with
  the `ℚ`-level `Bar.render` whenever `total ≠ 0` (`render32_eq_render`).
* `format!("{}", n)` and `format!("{:?}", n)` on a `usize` value are
  `Nat.repr`; `format!("{:.2}", x)` is `formatFixed2` (round half to even,
  always exactly two digits after the decimal point).
* `&mut self` methods become `Bar → ... → Bar` functions; the `Display::fmt`
  method takes `&self` (shared, read-only access), which is modelled by
  `Bar.renderStep : Bar → String × Bar` returning the unchanged state.
-/

namespace ProgressString

/-- Modulus of Rust `usize` arithmetic (64-bit target). -/
def USIZE : Nat := 2 ^ 64

/-- The `Bar` struct of `src/lib.rs` (field names and order as in the source;
`previous_text_width` is the field the spec calls `previous_rendered_width`). -/
structure Bar where
  current_partial : Nat
  total : Nat
  width : Nat
  empty_char : Char
  full_char : Char
  leading_char : Char
  include_percent : Bool
  include_numbers : Bool
  previous_text_width : Nat

/-- The `impl Default for Bar` constructor of `src/lib.rs`. -/
def Bar.default : Bar :=
  { current_partial := 0
    total := 100
    width := 50
    full_char := '█'
    empty_char := ' '
    leading_char := '█'
    include_percent := false
    include_numbers := false
    previous_text_width := 0 }

/-- The `BarBuilder` struct: a wrapper around a `Bar`. -/
structure BarBuilder where
  bar : Bar

/-- `BarBuilder::new`. -/
def BarBuilder.new : BarBuilder := ⟨Bar.default⟩

/-- `BarBuilder::total`. -/
def BarBuilder.total (b : BarBuilder) (n : Nat) : BarBuilder :=
  ⟨{ b.bar with total := n }⟩

/-- `BarBuilder::width`. -/
def BarBuilder.width (b : BarBuilder) (n : Nat) : BarBuilder :=
  ⟨{ b.bar with width := n }⟩

/-- `BarBuilder::empty_char`. -/
def BarBuilder.empty_char (b : BarBuilder) (c : Char) : BarBuilder :=
  ⟨{ b.bar with empty_char := c }⟩

/-- `BarBuilder::full_char`. -/
def BarBuilder.full_char (b : BarBuilder) (c : Char) : BarBuilder :=
  ⟨{ b.bar with full_char := c }⟩

/-- `BarBuilder::leading_char`; the `impl Into<Option<char>>` argument is an
`Option Char`.  On `none` the source copies the builder's *current*
`full_char` into `leading_char`. -/
def BarBuilder.leading_char (b : BarBuilder) (c : Option Char) : BarBuilder :=
  match c with
  | some ch => ⟨{ b.bar with leading_char := ch }⟩
  | none => ⟨{ b.bar with leading_char := b.bar.full_char }⟩

/-- `BarBuilder::include_percent`. -/
def BarBuilder.include_percent (b : BarBuilder) : BarBuilder :=
  ⟨{ b.bar with include_percent := true }⟩

/-- `BarBuilder::include_numbers`. -/
def BarBuilder.include_numbers (b : BarBuilder) : BarBuilder :=
  ⟨{ b.bar with include_numbers := true }⟩

/-- `BarBuilder::build` (and the deprecated `get_bar`): returns the inner bar. -/
def BarBuilder.build (b : BarBuilder) : Bar := b.bar

/-- One chained builder call, for quantifying over call sequences. -/
inductive BuilderOp where
  | total (n : Nat)
  | width (n : Nat)
  | empty_char (c : Char)
  | full_char (c : Char)
  | leading_char (c : Option Char)
  | include_percent
  | include_numbers

/-- Apply one builder call. -/
def applyOp (b : BarBuilder) : BuilderOp → BarBuilder
  | BuilderOp.total n => BarBuilder.total b n
  | BuilderOp.width n => BarBuilder.width b n
  | BuilderOp.empty_char c => BarBuilder.empty_char b c
  | BuilderOp.full_char c => BarBuilder.full_char b c
  | BuilderOp.leading_char c => BarBuilder.leading_char b c
  | BuilderOp.include_percent => BarBuilder.include_percent b
  | BuilderOp.include_numbers => BarBuilder.include_numbers b

/-- A whole chained configuration: `BarBuilder::new()` followed by the calls. -/
def applyOps (ops : List BuilderOp) : BarBuilder :=
  ops.foldl applyOp BarBuilder.new

/-- `Bar::calculate_percent`: `current_partial as f32 / total as f32`,
modelled on `ℚ`.  Faithful for `total ≠ 0`; at `total = 0` the Rust division
yields `NaN` or `+inf`, which `Bar.calculate_percent32` models (see the
module comment). -/
def Bar.calculate_percent (b : Bar) : ℚ :=
  (Bar.current_partial b : ℚ) / (b.total : ℚ)

/-- `Bar::get_width`.  The source starts from the hard-coded constant `52`
(`let mut width: usize = 52;`), not from `self.width + 2`.  The `f32`
literals `0.95` and `0.095` are modelled by the exact rationals they denote
in the source text. -/
def Bar.get_width (b : Bar) : Nat :=
  let w0 : Nat := 52
  let w1 : Nat :=
    if b.include_numbers then
      w0 + ((Nat.repr b.total).length + (Nat.repr (Bar.current_partial b)).length + 2)
    else w0
  if b.include_percent then
    if Bar.calculate_percent b ≥ 95 / 100 then w1 + 8
    else if Bar.calculate_percent b > 95 / 1000 then w1 + 7
    else w1 + 6
  else w1

/-- `Bar::update`: snapshot `get_width` into `previous_text_width`, then
`current_partial += to_add` (wrapping `usize` addition). -/
def Bar.update (b : Bar) (to_add : Nat) : Bar :=
  { b with
    previous_text_width := Bar.get_width b
    current_partial := (Bar.current_partial b + to_add) % USIZE }

/-- `Bar::replace`: snapshot `get_width` into `previous_text_width`, then
`current_partial = new_progress`. -/
def Bar.replace (b : Bar) (new_progress : Nat) : Bar :=
  { b with
    previous_text_width := Bar.get_width b
    current_partial := new_progress }

/-- `Bar::get_last_width`. -/
def Bar.get_last_width (b : Bar) : Nat := b.previous_text_width

/-- One cell of the fill track: the three-way comparison of the `for` loop in
`<Bar as Display>::fmt`. -/
def Bar.cell (b : Bar) (percent : ℚ) (i : Nat) : Char :=
  if (i : ℚ) < (b.width : ℚ) * percent - 1 then b.full_char
  else if (i : ℚ) < (b.width : ℚ) * percent then b.leading_char
  else b.empty_char

/-- The characters written between the brackets: the loop `for i in 0..self.width`. -/
def Bar.track (b : Bar) : List Char :=
  (List.range b.width).map (Bar.cell b (Bar.calculate_percent b))

/-- Round half to even, for `{:.2}` formatting. -/
def roundHalfEven (q : ℚ) : Int :=
  let f : Int := ⌊q⌋
  let r : ℚ := q - (f : ℚ)
  if r < 1 / 2 then f
  else if 1 / 2 < r then f + 1
  else if f % 2 = 0 then f else f + 1

/-- `format!("{:.2}", q)` for a nonnegative value: the integer part in
decimal, a point, and exactly two fractional digits. -/
def formatFixed2 (q : ℚ) : String :=
  let n : Nat := (roundHalfEven (q * 100)).toNat
  Nat.repr (n / 100) ++ "." ++ String.mk [Nat.digitChar (n / 10 % 10), Nat.digitChar (n % 10)]

/-- `<Bar as Display>::fmt`, assembling the same writes in the same order:
bracket, the `width` loop cells, bracket, the optional percent segment, the
optional numbers segment. -/
def Bar.fmt (b : Bar) : String :=
  let percent : ℚ := Bar.calculate_percent b
  let s1 : String := "[" ++ String.mk (Bar.track b) ++ "]"
  let s2 : String :=
    if b.include_percent then s1 ++ (" " ++ formatFixed2 (percent * 100) ++ "%") else s1
  if b.include_numbers then
    s2 ++ (" " ++ Nat.repr (Bar.current_partial b) ++ "/" ++ Nat.repr b.total)
  else s2

/-- The spec's `render()` (`to_string` via `Display` in the source). -/
def Bar.render (b : Bar) : String := Bar.fmt b

/-- `Display::fmt` takes `&self`: rendering returns the string and hands the
state back unchanged. -/
def Bar.renderStep (b : Bar) : String × Bar := (Bar.fmt b, b)

/-- Value domain of the `f32` division `current_partial / total` in this
crate and of the expressions derived from it: a nonnegative finite value,
modelled exactly as a rational, or the special values `+inf` (from `c / 0.0`
with `c > 0`) and `NaN` (from `0.0 / 0.0`, and from `0.0 * +inf`). -/
inductive F32Val where
  | finite (q : ℚ)
  | posInf
  | nan
  deriving DecidableEq

/-- IEEE comparison `(i as f32) < p`: `NaN` compares false with everything,
`+inf` is strictly above every finite value. -/
def F32Val.ltNat (i : Nat) : F32Val → Bool
  | F32Val.finite q => decide ((i : ℚ) < q)
  | F32Val.posInf => true
  | F32Val.nan => false

/-- IEEE product `width as f32 * p`: `0.0 * +inf` is `NaN`. -/
def F32Val.mulNat (w : Nat) : F32Val → F32Val
  | F32Val.finite q => F32Val.finite ((w : ℚ) * q)
  | F32Val.posInf => if w = 0 then F32Val.nan else F32Val.posInf
  | F32Val.nan => F32Val.nan

/-- IEEE difference `p - 1.0`. -/
def F32Val.subOne : F32Val → F32Val
  | F32Val.finite q => F32Val.finite (q - 1)
  | F32Val.posInf => F32Val.posInf
  | F32Val.nan => F32Val.nan

/-- IEEE product `p * 100.0`. -/
def F32Val.mul100 : F32Val → F32Val
  | F32Val.finite q => F32Val.finite (q * 100)
  | F32Val.posInf => F32Val.posInf
  | F32Val.nan => F32Val.nan

/-- Rust `format!("{:.2}", p)` over `F32Val`: the special values print as
`inf` and `NaN` regardless of the requested precision. -/
def formatFixed2F32 : F32Val → String
  | F32Val.finite q => formatFixed2 q
  | F32Val.posInf => "inf"
  | F32Val.nan => "NaN"

/-- `Bar::calculate_percent` with the `f32` special values kept: at
`total = 0` the division yields `NaN` (when `current_partial = 0`) or `+inf`
(otherwise); for `total ≠ 0` it is the exact rational quotient. -/
def Bar.calculate_percent32 (b : Bar) : F32Val :=
  if b.total = 0 then
    (if Bar.current_partial b = 0 then F32Val.nan else F32Val.posInf)
  else F32Val.finite ((Bar.current_partial b : ℚ) / (b.total : ℚ))

/-- One track cell of `<Bar as Display>::fmt`, over `F32Val`. -/
def Bar.cell32 (b : Bar) (percent : F32Val) (i : Nat) : Char :=
  if F32Val.ltNat i (F32Val.subOne (F32Val.mulNat b.width percent)) then b.full_char
  else if F32Val.ltNat i (F32Val.mulNat b.width percent) then b.leading_char
  else b.empty_char

/-- The track of `<Bar as Display>::fmt`, over `F32Val`. -/
def Bar.track32 (b : Bar) : List Char :=
  (List.range b.width).map (Bar.cell32 b (Bar.calculate_percent32 b))

/-- `<Bar as Display>::fmt` over `F32Val`: the rendering with the `f32`
special values kept.  Agrees with `Bar.fmt` whenever `total ≠ 0`
(`render32_eq_render`). -/
def Bar.fmt32 (b : Bar) : String :=
  let percent : F32Val := Bar.calculate_percent32 b
  let s1 : String := "[" ++ String.mk (Bar.track32 b) ++ "]"
  let s2 : String :=
    if b.include_percent then
      s1 ++ (" " ++ formatFixed2F32 (F32Val.mul100 percent) ++ "%")
    else s1
  if b.include_numbers then
    s2 ++ (" " ++ Nat.repr (Bar.current_partial b) ++ "/" ++ Nat.repr b.total)
  else s2

/-- The spec's `render()` with the `f32` special values kept. -/
def Bar.render32 (b : Bar) : String := Bar.fmt32 b

/-- `BarBuilder::new().total(0).include_percent().build()` after `update(5)`:
a builder-reachable bar whose `f32` percent is `+inf`. -/
def infPctBar : Bar :=
  Bar.update
    (BarBuilder.build (BarBuilder.include_percent (BarBuilder.total BarBuilder.new 0))) 5

/-- The default bar after `update(50)` (the spec's half-full scenario). -/
def halfBar : Bar := Bar.update Bar.default 50

/-- `BarBuilder::new().include_percent().build()` after `update(50)`. -/
def pctBar50 : Bar :=
  Bar.update (BarBuilder.build (BarBuilder.include_percent BarBuilder.new)) 50

/-- `BarBuilder::new().include_numbers().build()` after `replace(10)`. -/
def numBar10 : Bar :=
  Bar.replace (BarBuilder.build (BarBuilder.include_numbers BarBuilder.new)) 10

/-- `BarBuilder::new().width(10).build()`. -/
def widthTenBar : Bar := BarBuilder.build (BarBuilder.width BarBuilder.new 10)

/-- The default bar after `replace(150)`: progress beyond the total. -/
def overBar : Bar := Bar.replace Bar.default 150

theorem track_length (b : Bar) : (Bar.track b).length = b.width := by
  simp [Bar.track]

theorem track_getElem? (b : Bar) (i : Nat) (h : i < b.width) :
    (Bar.track b)[i]? = some (Bar.cell b (Bar.calculate_percent b) i) := by
  simp [Bar.track, List.getElem?_map, List.getElem?_range h]

theorem fmt_decomp (b : Bar) :
    Bar.fmt b =
      "[" ++ String.mk (Bar.track b) ++ "]"
        ++ (if b.include_percent
            then " " ++ formatFixed2 (Bar.calculate_percent b * 100) ++ "%" else "")
        ++ (if b.include_numbers
            then " " ++ Nat.repr (Bar.current_partial b) ++ "/" ++ Nat.repr b.total
            else "") := by
  cases hp : b.include_percent <;> cases hn : b.include_numbers <;>
    simp [Bar.fmt, hp, hn, String.append_assoc, String.append_empty]

theorem render_decomp (b : Bar) :
    Bar.render b =
      "[" ++ String.mk (Bar.track b) ++ "]"
        ++ (if b.include_percent
            then " " ++ formatFixed2 (Bar.calculate_percent b * 100) ++ "%" else "")
        ++ (if b.include_numbers
            then " " ++ Nat.repr (Bar.current_partial b) ++ "/" ++ Nat.repr b.total
            else "") :=
  fmt_decomp b

theorem applyOp_previous (b : BarBuilder) (op : BuilderOp) :
    (applyOp b op).bar.previous_text_width = b.bar.previous_text_width := by
  cases op with
  | total n => rfl
  | width n => rfl
  | empty_char c => rfl
  | full_char c => rfl
  | leading_char c => cases c <;> rfl
  | include_percent => rfl
  | include_numbers => rfl

theorem applyOps_previous (ops : List BuilderOp) :
    (applyOps ops).bar.previous_text_width = 0 := by
  suffices h : ∀ (l : List BuilderOp) (b : BarBuilder),
      (l.foldl applyOp b).bar.previous_text_width = b.bar.previous_text_width by
    simpa [applyOps] using h ops BarBuilder.new
  intro l
  induction l with
  | nil => intro b; rfl
  | cons op rest ih => intro b; rw [List.foldl_cons, ih, applyOp_previous]

theorem render_length_no_flags (b : Bar) (hp : b.include_percent = false)
    (hn : b.include_numbers = false) :
    (Bar.render b).length = b.width + 2 := by
  rw [render_decomp, hp, hn]
  have h1 : (String.mk (Bar.track b)).length = b.width := track_length b
  simp only [Bool.false_eq_true, if_false, String.append_empty, String.length_append, h1]
  have h2 : ("[" : String).length = 1 := rfl
  have h3 : ("]" : String).length = 1 := rfl
  omega

/-- C1: the spec claims `get_width()` starts from a base of `width + 2` for
every configured width, but the source hard-codes the base `52`
(`let mut width: usize = 52;`), which only coincides with `width + 2` at the
default width `50`.  At configured width `10` (flags off) the actual render
is 12 characters long while `get_width()` still answers 52, contradicting
`get_width`'s own doc comment ("Get the current width of characters in the
bar"). -/
theorem C1_get_width_base_hardcoded :
    Bar.get_width widthTenBar = 52 ∧
    widthTenBar.width + 2 = 12 ∧
    (Bar.render widthTenBar).length = 12 := by
  refine ⟨rfl, by decide, ?_⟩
  rw [render_length_no_flags widthTenBar rfl rfl]
  decide

/-- C2 counterexample: a builder that sets `full_char('X')` and never calls
`leading_char` builds a bar whose leading glyph is still the default `'█'`,
not the `'X'` that `full_char` holds at `build()` time. -/
theorem C2_counterexample :
    (BarBuilder.build (BarBuilder.full_char BarBuilder.new 'X')).full_char = 'X' ∧
    (BarBuilder.build (BarBuilder.full_char BarBuilder.new 'X')).leading_char = '█' ∧
    ('█' : Char) ≠ 'X' :=
  ⟨rfl, rfl, by decide⟩

/-- C2 (amended): the fallback of `leading_char` to `full_char` is resolved
at the time of the `leading_char` call with no character, not at `build()`
time: `leading_char(None)` copies the builder's current `full_char`; a
`full_char` call never touches the leading glyph; `build()` does not
re-resolve it; when `leading_char` is never called the leading glyph stays
at the default `'█'` (which mirrors the default `full_char`). -/
theorem C2_leading_char_resolved_at_call_time :
    (∀ b : BarBuilder,
      (BarBuilder.leading_char b none).bar.leading_char = b.bar.full_char) ∧
    (∀ (b : BarBuilder) (c : Char),
      (BarBuilder.full_char b c).bar.leading_char = b.bar.leading_char) ∧
    (∀ b : BarBuilder, (BarBuilder.build b).leading_char = b.bar.leading_char) ∧
    (BarBuilder.build
      (BarBuilder.leading_char (BarBuilder.full_char BarBuilder.new 'X') none)).leading_char
      = 'X' ∧
    BarBuilder.new.bar.leading_char = BarBuilder.new.bar.full_char :=
  ⟨fun _ => rfl, fun _ _ => rfl, fun _ => rfl, rfl, rfl⟩

/-- C4: `update` and `replace` snapshot the pre-mutation `get_width()` into
`previous_text_width` and only then change `current_partial`; a bar freshly
produced by any chain of builder calls has `get_last_width() = 0`; after one
`update`/`replace` on any bar, `get_last_width()` is the `get_width()` value
of the state immediately before that call. -/
theorem C4_width_snapshot_before_mutation :
    (∀ ops : List BuilderOp,
      Bar.get_last_width (BarBuilder.build (applyOps ops)) = 0) ∧
    (∀ (b : Bar) (n : Nat),
      Bar.get_last_width (Bar.update b n) = Bar.get_width b ∧
      Bar.get_last_width (Bar.replace b n) = Bar.get_width b ∧
      Bar.current_partial (Bar.update b n) = (Bar.current_partial b + n) % USIZE ∧
      Bar.current_partial (Bar.replace b n) = n) :=
  ⟨fun ops => applyOps_previous ops, fun _ _ => ⟨rfl, rfl, rfl, rfl⟩⟩

/-- C5: `get_width()` adds `len(decimal(total)) + len(decimal(current_partial)) + 2`
when `include_numbers` is set, and adds `8` when the percent ratio is at
least `0.95`, else `7` when it exceeds `0.095`, else `6`, when
`include_percent` is set. -/
theorem C5_get_width_additions (b : Bar) :
    Bar.get_width b =
      52 + (if b.include_numbers
            then (Nat.repr b.total).length + (Nat.repr (Bar.current_partial b)).length + 2
            else 0)
         + (if b.include_percent
            then (if Bar.calculate_percent b ≥ 95 / 100 then 8
                  else if Bar.calculate_percent b > 95 / 1000 then 7 else 6)
            else 0) := by
  simp only [Bar.get_width]
  split_ifs <;> omega

/-- C8: rendering is pure: `Display::fmt` takes `&self`, so the state handed
back by `renderStep` is the very bar that was passed in, and rendering twice
with no intervening mutation yields identical strings. -/
theorem C8_render_pure (b : Bar) :
    Bar.render b = (Bar.renderStep b).1 ∧
    (Bar.renderStep b).2 = b ∧
    (Bar.renderStep ((Bar.renderStep b).2)).1 = (Bar.renderStep b).1 :=
  ⟨rfl, rfl, rfl⟩

/-- C9: `update` and `replace` modify only `current_partial` and
`previous_text_width`; `total`, `width`, the three glyphs and the two flags
are unchanged by every call. -/
theorem C9_update_replace_frame (b : Bar) (n : Nat) :
    (Bar.update b n).total = b.total ∧
    (Bar.update b n).width = b.width ∧
    (Bar.update b n).empty_char = b.empty_char ∧
    (Bar.update b n).full_char = b.full_char ∧
    (Bar.update b n).leading_char = b.leading_char ∧
    (Bar.update b n).include_percent = b.include_percent ∧
    (Bar.update b n).include_numbers = b.include_numbers ∧
    (Bar.replace b n).total = b.total ∧
    (Bar.replace b n).width = b.width ∧
    (Bar.replace b n).empty_char = b.empty_char ∧
    (Bar.replace b n).full_char = b.full_char ∧
    (Bar.replace b n).leading_char = b.leading_char ∧
    (Bar.replace b n).include_percent = b.include_percent ∧
    (Bar.replace b n).include_numbers = b.include_numbers :=
  ⟨rfl, rfl, rfl, rfl, rfl, rfl, rfl, rfl, rfl, rfl, rfl, rfl, rfl, rfl⟩

/-- C10 counterexample: `update`'s `+=` is unchecked `usize` addition, which
wraps (release-mode semantics): at `current_partial = 2 ^ 64 - 1`,
`update(1)` wraps to `0`, strictly below the previous value, so progress via
`update` is not monotonically non-decreasing for every bar and delta. -/
theorem C10_counterexample :
    ¬ (Bar.current_partial (Bar.replace Bar.default (USIZE - 1)) ≤
        Bar.current_partial (Bar.update (Bar.replace Bar.default (USIZE - 1)) 1)) := by
  show ¬ ((USIZE - 1 : Nat) ≤ (USIZE - 1 + 1) % USIZE)
  norm_num [USIZE]

/-- C10 (amended): `update`'s delta is a `usize`, so negative deltas are
ruled out by the interface, and `current_partial` after `update(delta)` is
`(old + delta) % 2 ^ 64`; whenever the addition does not overflow
(`old + delta < 2 ^ 64`) the new value is greater than or equal to the old
one; on overflow the value wraps and can decrease (only `replace` can
otherwise move progress backward). -/
theorem C10_update_monotone_without_overflow (b : Bar) (d : Nat)
    (h : Bar.current_partial b + d < USIZE) :
    Bar.current_partial b ≤ Bar.current_partial (Bar.update b d) := by
  show Bar.current_partial b ≤ (Bar.current_partial b + d) % USIZE
  rw [Nat.mod_eq_of_lt h]
  exact Nat.le_add_right _ _

/-- C3: for every bar with positive total, `render()` opens with `'['`,
emits exactly `width` cells, and closes with `']'` before any suffixes; cell
`i` is `full_char` when `i < fill - 1`, else `leading_char` when `i < fill`,
else `empty_char`, with `fill = width * (current_partial / total)`; and for
the default bar after `update(50)` the fill is `25`, columns 0–23 render
`full_char`, column 24 renders `leading_char`, columns 25–49 render
`empty_char`. -/
theorem C3_track_cell_rule (b : Bar) (_h : 0 < b.total) :
    (∃ s : String, Bar.render b = "[" ++ String.mk (Bar.track b) ++ "]" ++ s) ∧
    (Bar.track b).length = b.width ∧
    (∀ i : Nat, i < b.width → (Bar.track b)[i]? =
      some (if (i : ℚ) < (b.width : ℚ) * ((Bar.current_partial b : ℚ) / (b.total : ℚ)) - 1
            then b.full_char
            else if (i : ℚ) < (b.width : ℚ) * ((Bar.current_partial b : ℚ) / (b.total : ℚ))
            then b.leading_char
            else b.empty_char)) ∧
    (halfBar.width : ℚ) * Bar.calculate_percent halfBar = 25 ∧
    (∀ i : Nat, i < 24 → (Bar.track halfBar)[i]? = some halfBar.full_char) ∧
    (Bar.track halfBar)[24]? = some halfBar.leading_char ∧
    (∀ i : Nat, 25 ≤ i → i < 50 → (Bar.track halfBar)[i]? = some halfBar.empty_char) := by
  have hw : halfBar.width = 50 := rfl
  have hfill : (halfBar.width : ℚ) * Bar.calculate_percent halfBar = 25 := by
    have hc : Bar.current_partial halfBar = 50 := rfl
    have ht : halfBar.total = 100 := rfl
    rw [Bar.calculate_percent, hc, ht, hw]
    norm_num
  refine ⟨⟨_, by rw [render_decomp, String.append_assoc]⟩, track_length b, ?_, hfill, ?_, ?_, ?_⟩
  · intro i hi
    rw [track_getElem? b i hi]
    rfl
  · intro i hi
    rw [track_getElem? halfBar i (by rw [hw]; omega)]
    simp only [Bar.cell]
    rw [hfill, if_pos (show (i : ℚ) < 25 - 1 by
      rw [show (25 : ℚ) - 1 = 24 from by norm_num]
      exact_mod_cast hi)]
  · rw [track_getElem? halfBar 24 (by rw [hw]; omega)]
    simp only [Bar.cell]
    rw [hfill, if_neg (by push_cast; norm_num), if_pos (by push_cast; norm_num)]
  · intro i h25 h50
    rw [track_getElem? halfBar i (by rw [hw]; omega)]
    simp only [Bar.cell]
    have hge : (25 : ℚ) ≤ (i : ℚ) := by exact_mod_cast h25
    rw [hfill, if_neg (not_lt.mpr (by linarith)), if_neg (not_lt.mpr (by linarith))]

/-- C3 witness: the track rule at the default bar (total 100 is positive). -/
theorem C3_witness :
    0 < Bar.default.total ∧
    ((∃ s : String,
        Bar.render Bar.default = "[" ++ String.mk (Bar.track Bar.default) ++ "]" ++ s) ∧
      (Bar.track Bar.default).length = Bar.default.width ∧
      (∀ i : Nat, i < Bar.default.width → (Bar.track Bar.default)[i]? =
        some (if (i : ℚ) < (Bar.default.width : ℚ) *
                ((Bar.current_partial Bar.default : ℚ) / (Bar.default.total : ℚ)) - 1
              then Bar.default.full_char
              else if (i : ℚ) < (Bar.default.width : ℚ) *
                ((Bar.current_partial Bar.default : ℚ) / (Bar.default.total : ℚ))
              then Bar.default.leading_char
              else Bar.default.empty_char)) ∧
      (halfBar.width : ℚ) * Bar.calculate_percent halfBar = 25 ∧
      (∀ i : Nat, i < 24 → (Bar.track halfBar)[i]? = some halfBar.full_char) ∧
      (Bar.track halfBar)[24]? = some halfBar.leading_char ∧
      (∀ i : Nat, 25 ≤ i → i < 50 → (Bar.track halfBar)[i]? = some halfBar.empty_char)) :=
  ⟨by decide, C3_track_cell_rule Bar.default (by decide)⟩

theorem fmt32_decomp (b : Bar) :
    Bar.render32 b =
      "[" ++ String.mk (Bar.track32 b) ++ "]"
        ++ (if b.include_percent
            then " " ++ formatFixed2F32 (F32Val.mul100 (Bar.calculate_percent32 b)) ++ "%"
            else "")
        ++ (if b.include_numbers
            then " " ++ Nat.repr (Bar.current_partial b) ++ "/" ++ Nat.repr b.total
            else "") := by
  cases hp : b.include_percent <;> cases hn : b.include_numbers <;>
    simp [Bar.render32, Bar.fmt32, hp, hn, String.append_assoc, String.append_empty]

theorem cell32_finite (b : Bar) (q : ℚ) (i : Nat) :
    Bar.cell32 b (F32Val.finite q) i = Bar.cell b q i := by
  simp [Bar.cell32, Bar.cell, F32Val.ltNat, F32Val.subOne, F32Val.mulNat]

theorem calculate_percent32_finite (b : Bar) (h : b.total ≠ 0) :
    Bar.calculate_percent32 b = F32Val.finite (Bar.calculate_percent b) := by
  unfold Bar.calculate_percent32
  rw [if_neg h]
  rfl

theorem track32_eq_track (b : Bar) (h : b.total ≠ 0) : Bar.track32 b = Bar.track b := by
  show (List.range b.width).map (Bar.cell32 b (Bar.calculate_percent32 b)) =
    (List.range b.width).map (Bar.cell b (Bar.calculate_percent b))
  rw [calculate_percent32_finite b h]
  exact congrArg (fun f => (List.range b.width).map f)
    (funext fun i => cell32_finite b (Bar.calculate_percent b) i)

theorem render32_eq_render (b : Bar) (h : b.total ≠ 0) :
    Bar.render32 b = Bar.render b := by
  rw [fmt32_decomp, render_decomp, track32_eq_track b h, calculate_percent32_finite b h]
  rfl

/-- C6 counterexample: the claim quantifies over every bar, but at the
builder-reachable bar `total(0).include_percent().build()` after `update(5)`
the `f32` percent is `+inf` and the program appends `" inf%"` after the
closing bracket — not a space, a value formatted with exactly two decimal
digits, and `%`: no decomposition of `" inf%"` of that shape exists. -/
theorem C6_counterexample :
    infPctBar.include_percent = true ∧
    Bar.calculate_percent32 infPctBar = F32Val.posInf ∧
    Bar.render32 infPctBar = "[" ++ String.mk (Bar.track32 infPctBar) ++ "]" ++ " inf%" ∧
    ¬ ∃ intPart fracPart : String,
        (" inf%" : String) = " " ++ (intPart ++ "." ++ fracPart) ++ "%" ∧
        fracPart.length = 2 := by
  refine ⟨rfl, by decide, ?_, ?_⟩
  · rw [fmt32_decomp, if_pos (show infPctBar.include_percent = true from rfl),
      if_neg (show ¬(infPctBar.include_numbers = true) from by decide),
      show Bar.calculate_percent32 infPctBar = F32Val.posInf from by decide,
      String.append_empty,
      show (" " ++ formatFixed2F32 (F32Val.mul100 F32Val.posInf) ++ "%" : String) = " inf%"
        from by decide]
  · rintro ⟨a, c, h, hlen⟩
    have hmem : ('.' : Char) ∈ (" inf%" : String).data := by
      rw [h]
      simp [String.data_append, show ("." : String).data = ['.'] from rfl, List.mem_append]
    exact absurd hmem (by decide)

/-- C6 (amended): for every bar with positive total, after the closing
bracket `render()` appends, in this order: when `include_percent`, a space,
the percent ratio scaled by 100 formatted with exactly two decimal digits,
and `%`; when `include_numbers`, a space, `current_partial`, a slash, and
`total` in plain decimal; with both flags the percent segment comes first
(at `total = 0` the `f32` ratio is `NaN` or `+inf` and the percent segment
prints `" NaN%"` / `" inf%"` instead).  On the default total 100,
`update(50)` with `include_percent` yields suffix `" 50.00%"`, and
`replace(10)` with `include_numbers` yields suffix `" 10/100"`. -/
theorem C6_render_suffixes_pos_total :
    (∀ b : Bar, 0 < b.total →
      Bar.render32 b = Bar.render b ∧
      Bar.render b =
        "[" ++ String.mk (Bar.track b) ++ "]"
          ++ (if b.include_percent
              then " " ++ formatFixed2 (Bar.calculate_percent b * 100) ++ "%" else "")
          ++ (if b.include_numbers
              then " " ++ Nat.repr (Bar.current_partial b) ++ "/" ++ Nat.repr b.total
              else "")) ∧
    (∀ q : ℚ, ∃ intPart fracPart : String,
      formatFixed2 q = intPart ++ "." ++ fracPart ∧ fracPart.length = 2) ∧
    Bar.render pctBar50 = "[" ++ String.mk (Bar.track pctBar50) ++ "]" ++ " 50.00%" ∧
    Bar.render numBar10 = "[" ++ String.mk (Bar.track numBar10) ++ "]" ++ " 10/100" := by
  refine ⟨fun b hb => ⟨render32_eq_render b (by omega), render_decomp b⟩, ?_, ?_, ?_⟩
  · intro q
    exact ⟨Nat.repr ((roundHalfEven (q * 100)).toNat / 100),
      String.mk [Nat.digitChar ((roundHalfEven (q * 100)).toNat / 10 % 10),
        Nat.digitChar ((roundHalfEven (q * 100)).toNat % 10)], rfl, rfl⟩
  · have hpct : Bar.calculate_percent pctBar50 = 1 / 2 := by
      have hc : Bar.current_partial pctBar50 = 50 := rfl
      have ht : pctBar50.total = 100 := rfl
      rw [Bar.calculate_percent, hc, ht]
      norm_num
    have hff : formatFixed2 ((1 : ℚ) / 2 * 100) = "50.00" := by
      have h1 : ((1 : ℚ) / 2 * 100) * 100 = 5000 := by norm_num
      have h2 : roundHalfEven (5000 : ℚ) = 5000 := by
        have hf : ⌊(5000 : ℚ)⌋ = 5000 := by norm_num
        simp only [roundHalfEven, hf]
        norm_num
      simp only [formatFixed2, h1, h2]
      decide
    rw [render_decomp, if_pos (show pctBar50.include_percent = true from rfl),
      if_neg (show ¬(pctBar50.include_numbers = true) from by decide),
      hpct, hff, String.append_empty,
      show (" " ++ "50.00" ++ "%" : String) = " 50.00%" from by decide]
  · rw [render_decomp, if_neg (show ¬(numBar10.include_percent = true) from by decide),
      if_pos (show numBar10.include_numbers = true from rfl),
      show Nat.repr (Bar.current_partial numBar10) = "10" from by decide,
      show Nat.repr numBar10.total = "100" from by decide,
      String.append_empty,
      show (" " ++ "10" ++ "/" ++ "100" : String) = " 10/100" from by decide]

/-- C6 witness: the amended suffix rule at the `include_percent` bar after
`update(50)` (total 100 is positive). -/
theorem C6_witness :
    0 < pctBar50.total ∧
    (Bar.render32 pctBar50 = Bar.render pctBar50 ∧
      Bar.render pctBar50 =
        "[" ++ String.mk (Bar.track pctBar50) ++ "]"
          ++ (if pctBar50.include_percent
              then " " ++ formatFixed2 (Bar.calculate_percent pctBar50 * 100) ++ "%" else "")
          ++ (if pctBar50.include_numbers
              then " " ++ Nat.repr (Bar.current_partial pctBar50) ++ "/"
                ++ Nat.repr pctBar50.total
              else "")) :=
  ⟨by decide, C6_render_suffixes_pos_total.1 pctBar50 (by decide)⟩

/-- C7: when `current_partial` exceeds a positive `total`, every column index
`i` below `width` satisfies `i < width * (current_partial / total)`, so the
empty branch is never taken: the track still has exactly `width` cells and
every cell renders `full_char` or `leading_char`. -/
theorem C7_overfill_paints_full_track (b : Bar) (h1 : 0 < b.total)
    (h2 : b.total < Bar.current_partial b) :
    (∀ i : Nat, i < b.width → (i : ℚ) < (b.width : ℚ) * Bar.calculate_percent b) ∧
    (Bar.track b).length = b.width ∧
    (∀ i : Nat, i < b.width →
      (Bar.track b)[i]? = some b.full_char ∨ (Bar.track b)[i]? = some b.leading_char) := by
  have ht : (0 : ℚ) < (b.total : ℚ) := by exact_mod_cast h1
  have hp1 : 1 ≤ Bar.calculate_percent b := by
    rw [Bar.calculate_percent, one_le_div ht]
    exact_mod_cast le_of_lt h2
  have hkey : ∀ i : Nat, i < b.width → (i : ℚ) < (b.width : ℚ) * Bar.calculate_percent b := by
    intro i hi
    have hiw : (i : ℚ) < (b.width : ℚ) := by exact_mod_cast hi
    exact lt_of_lt_of_le hiw (le_mul_of_one_le_right (by positivity) hp1)
  refine ⟨hkey, track_length b, ?_⟩
  intro i hi
  rw [track_getElem? b i hi]
  by_cases hc : (i : ℚ) < (b.width : ℚ) * Bar.calculate_percent b - 1
  · left
    simp only [Bar.cell]
    rw [if_pos hc]
  · right
    simp only [Bar.cell]
    rw [if_neg hc, if_pos (hkey i hi)]

/-- C7 witness: the overfill theorem at the default bar after `replace(150)`. -/
theorem C7_witness :
    0 < overBar.total ∧ overBar.total < Bar.current_partial overBar ∧
    ((∀ i : Nat, i < overBar.width →
        (i : ℚ) < (overBar.width : ℚ) * Bar.calculate_percent overBar) ∧
      (Bar.track overBar).length = overBar.width ∧
      (∀ i : Nat, i < overBar.width →
        (Bar.track overBar)[i]? = some overBar.full_char ∨
          (Bar.track overBar)[i]? = some overBar.leading_char)) :=
  ⟨by decide, by decide, C7_overfill_paints_full_track overBar (by decide) (by decide)⟩

/-- C10 witness: the amended monotonicity at the default bar and delta 5. -/
theorem C10_witness :
    Bar.current_partial Bar.default + 5 < USIZE ∧
    Bar.current_partial Bar.default ≤ Bar.current_partial (Bar.update Bar.default 5) :=
  ⟨by decide, C10_update_monotone_without_overflow Bar.default 5 (by decide)⟩

end ProgressString
